import Mathlib

/-
Shallow embedding of the substantive logic of the nest-neo4j integration
layer (source files: src/neo4j.service.ts, src/index.ts,
src/filters/neo4j-error.filter.ts, src/interfaces/neo4j-config.interface.ts).

Modelling conventions:
* JavaScript numbers that only ever carry integral data in the claims under
  study (driver integers converted via toNumber, point coordinates, ports)
  are modelled as Lean Int; no floating-point arithmetic is performed by the
  code under verification.
* neo4j-driver values are a closed grammar (the driver type predicates
  isInt, isDate, ..., isPoint, instanceof Node used by convertValues),
  modelled by the inductive type Value below.
* Fallible JavaScript code (property access on null/undefined throwing a
  TypeError, String.prototype.match returning null followed by an index
  access) is modelled in Option: none means the operation throws.
-/

/-- The six neo4j-driver temporal kinds tested on lines 205-210 of
neo4j.service.ts (isDate, isDateTime, isLocalTime, isLocalDateTime, isTime,
isDuration). Each driver temporal object carries a canonical string
serialization; the embedding stores that string directly. -/
inductive TemporalKind where
  | date
  | dateTime
  | localTime
  | localDateTime
  | time
  | duration

/-- Grammar of values reachable inside a raw neo4j-driver result record:
null, JS scalars, driver integers, driver temporal values, spatial points
(srid plus 2 or 3 coordinates), nodes (identity, labels, properties), and
nested arrays / plain objects. Plain objects are association lists with
distinct keys, in insertion order. -/
inductive Value where
  | vnull
  | vbool (b : Bool)
  | vnum (n : Int)
  | vstr (s : String)
  | vint (i : Int)
  | vtemporal (k : TemporalKind) (s : String)
  | vpoint (srid : Int) (x y : Int) (z : Option Int)
  | vnode (identity : Int) (labels : List String) (properties : List (String × Value))
  | varr (elems : List Value)
  | vobj (fields : List (String × Value))

/-- Number.MAX_SAFE_INTEGER = 2^53 - 1; neo4j.integer.inSafeRange compares
against Integer.fromNumber of this constant. -/
def maxSafeInteger : Int := 9007199254740991

/-- Number.MIN_SAFE_INTEGER = -(2^53 - 1). -/
def minSafeInteger : Int := -9007199254740991

/-- neo4j.integer.inSafeRange (neo4j.service.ts line 196). -/
def inSafeRange (i : Int) : Bool :=
  minSafeInteger ≤ i && i ≤ maxSafeInteger

/-- toString of a neo4j-driver Point (external driver, black box): renders
"Point{srid:S, x:X, y:Y}" for 2D points and additionally ", z:Z" for 3D
points. Braces written with escapes. -/
def pointToString (srid x y : Int) (z : Option Int) : String :=
  match z with
  | none =>
      "Point\x7bsrid:" ++ srid.repr ++ ", x:" ++ x.repr ++ ", y:" ++ y.repr ++ "\x7d"
  | some zz =>
      "Point\x7bsrid:" ++ srid.repr ++ ", x:" ++ x.repr ++ ", y:" ++ y.repr
        ++ ", z:" ++ zz.repr ++ "\x7d"

mutual
/-- convertValues (neo4j.service.ts lines 189-249), in source order:
null passes through (190); driver integers become numbers when in safe
range, else decimal strings (195-201); the disjunction on lines 204-212
includes isPoint(value) alongside the six temporal predicates, so every
spatial point takes the toString branch on line 213 — the dedicated
spatial switch on lines 217-228 is unreachable; nodes are replaced by
their property map and fall through to the object branch (231-233);
arrays map recursively (236-238); plain objects convert each key in
place (241-246); remaining scalars return unchanged (248). -/
def convertValues : Value → Value
  | .vnull => .vnull
  | .vint i => if inSafeRange i then .vnum i else .vstr i.repr
  | .vtemporal _ s => .vstr s
  | .vpoint srid x y z => .vstr (pointToString srid x y z)
  | .vnode _ _ props => .vobj (convertFields props)
  | .varr es => .varr (convertList es)
  | .vobj fs => .vobj (convertFields fs)
  | .vbool b => .vbool b
  | .vnum n => .vnum n
  | .vstr s => .vstr s
termination_by structural v => v

/-- Elementwise conversion of a JS array (value.map on line 237). -/
def convertList : List Value → List Value
  | [] => []
  | v :: vs => convertValues v :: convertList vs
termination_by structural l => l

/-- Keywise in-place conversion of a plain object (lines 242-245). -/
def convertFields : List (String × Value) → List (String × Value)
  | [] => []
  | (k, v) :: fs => (k, convertValues v) :: convertFields fs
termination_by structural l => l
end

mutual
/-- A value is plain when every reachable part of it is null, a number, a
string, a boolean, or a nested array/object of plain values — i.e. no
driver-specific type (integer, temporal, point, node) survives. -/
def isPlain : Value → Bool
  | .vnull => true
  | .vbool _ => true
  | .vnum _ => true
  | .vstr _ => true
  | .vint _ => false
  | .vtemporal _ _ => false
  | .vpoint _ _ _ _ => false
  | .vnode _ _ _ => false
  | .varr es => isPlainList es
  | .vobj fs => isPlainFields fs
termination_by structural v => v

def isPlainList : List Value → Bool
  | [] => true
  | v :: vs => isPlain v && isPlainList vs
termination_by structural l => l

def isPlainFields : List (String × Value) → Bool
  | [] => true
  | (_, v) :: fs => isPlain v && isPlainFields fs
termination_by structural l => l
end

mutual
theorem convertValues_plain : (v : Value) → isPlain (convertValues v) = true
  | .vnull => rfl
  | .vbool _ => rfl
  | .vnum _ => rfl
  | .vstr _ => rfl
  | .vint i => by
      simp only [convertValues]
      split <;> rfl
  | .vtemporal _ _ => rfl
  | .vpoint _ _ _ _ => rfl
  | .vnode _ _ props => by
      simp only [convertValues, isPlain]
      exact convertFields_plain props
  | .varr es => by
      simp only [convertValues, isPlain]
      exact convertList_plain es
  | .vobj fs => by
      simp only [convertValues, isPlain]
      exact convertFields_plain fs

theorem convertList_plain : (es : List Value) → isPlainList (convertList es) = true
  | [] => rfl
  | v :: vs => by
      simp only [convertList, isPlainList, Bool.and_eq_true]
      exact ⟨convertValues_plain v, convertList_plain vs⟩

theorem convertFields_plain :
    (fs : List (String × Value)) → isPlainFields (convertFields fs) = true
  | [] => rfl
  | (k, v) :: fs => by
      simp only [convertFields, isPlainFields, Bool.and_eq_true]
      exact ⟨convertValues_plain v, convertFields_plain fs⟩
end

/-- A raw driver record: its ordered field names (record.keys) paired with
the field values (record.get); driver records have pairwise distinct keys. -/
abbrev RecordV := List (String × Value)

/-- Input to extractRecords: either a JS array of records, or any non-array
value (the function is typed to take Record[] but guards defensively). -/
inductive RecData where
  | arr : List RecordV → RecData
  | scalar : Value → RecData

/-- Output of extractRecords: an array of plain objects, or the non-array
input passed through unchanged. -/
inductive ExtractOut where
  | records : List (List (String × Value)) → ExtractOut
  | passthrough : Value → ExtractOut

/-- JavaScript truthiness of a value: null, undefined, false, 0, NaN and ""
are falsy; everything else (arrays, objects, driver objects included) is
truthy. The grammar has no undefined or NaN. -/
def truthy : Value → Bool
  | .vnull => false
  | .vbool b => b
  | .vnum n => n != 0
  | .vstr s => s != ""
  | _ => true

/-- One record mapped to a plain object (lines 178-186): for each key in
order, obj[key] = convertValues(record.get(key)). -/
def extractRecord (r : RecordV) : List (String × Value) :=
  r.map (fun kv => (kv.1, convertValues kv.2))

/-- extractRecords (lines 169-187): `if (!data) return []` rejects every
falsy input (not only null/undefined); a truthy non-array input is returned
unchanged (line 174-176); an array is mapped recordwise. A JS array is
always truthy, so testing truthiness only on the scalar branch is faithful. -/
def extractRecords : RecData → ExtractOut
  | .arr rs => .records (rs.map extractRecord)
  | .scalar v => if truthy v then .passthrough v else .records []

/-- C1: the claim says a srid-4326 point normalizes to
\x7blongitude: point.y, latitude: point.x\x7d (and 4979 additionally carries
height). The code contradicts this: line 211 includes isPoint(value) in the
temporal toString disjunction, so every point is stringified on line 213 and
the spatial switch on lines 217-228 — which implements exactly the claimed
mapping — is unreachable dead code. Evaluating the code at a 4326 point and
a 4979 point shows the string results, which differ from the claimed
mappings. -/
theorem point_srid_4326_stringified :
    convertValues (.vpoint 4326 1 2 none) = .vstr "Point\x7bsrid:4326, x:1, y:2\x7d" ∧
    convertValues (.vpoint 4979 1 2 (some 3))
      = .vstr "Point\x7bsrid:4979, x:1, y:2, z:3\x7d" ∧
    convertValues (.vpoint 4326 1 2 none)
      ≠ .vobj [("longitude", .vnum 2), ("latitude", .vnum 1)] := by
  refine ⟨rfl, rfl, ?_⟩
  intro h
  exact Value.noConfusion h

/-- Every extracted record is keywise plain. -/
theorem extractRecord_plain (r : RecordV) : isPlainFields (extractRecord r) = true := by
  induction r with
  | nil => rfl
  | cons kv tl ih =>
      simp only [extractRecord, List.map_cons, isPlainFields, Bool.and_eq_true]
      exact ⟨convertValues_plain kv.2, ih⟩

/-- C3: every value produced by the normalizer is plain — no driver-specific
type (integer, temporal, point, node) survives at any nesting depth; every
reachable value is null, a number, a string, a boolean, or a nested
array/object of such values. Stated both for the conversion rule on
arbitrary grammar values and for every record that extractRecords returns. -/
theorem extractRecords_output_plain :
    (∀ v : Value, isPlain (convertValues v) = true) ∧
    (∀ (rs : List RecordV) (out : List (List (String × Value))),
      extractRecords (.arr rs) = .records out →
      ∀ rec, rec ∈ out → isPlainFields rec = true) := by
  constructor
  · exact convertValues_plain
  · intro rs out h rec hrec
    have hout : out = rs.map extractRecord := by
      cases h
      rfl
    subst hout
    rcases List.mem_map.mp hrec with ⟨r, _, hr⟩
    subst hr
    exact extractRecord_plain r

/-- Witness for C3 at a concrete input: a record holding a driver integer,
a temporal value and a node normalizes to a plain record. -/
theorem extractRecords_output_plain_witness :
    isPlainFields (extractRecord
      [("n", .vint 5), ("d", .vtemporal .date "2024-01-01"),
       ("node", .vnode 7 ["Person"] [("age", .vint 41)])]) = true := by
  refine extractRecords_output_plain.2
    [[("n", .vint 5), ("d", .vtemporal .date "2024-01-01"),
      ("node", .vnode 7 ["Person"] [("age", .vint 41)])]]
    _ rfl _ ?_
  simp [extractRecords, extractRecord]

/-- C4: a driver integer inside the platform safe-integer range
[-(2^53-1), 2^53-1] normalizes to a native number equal to the original
value; any driver integer outside that range normalizes to its exact
decimal string representation. -/
theorem integer_conversion_safe_range (i : Int) :
    (minSafeInteger ≤ i → i ≤ maxSafeInteger → convertValues (.vint i) = .vnum i) ∧
    ((i < minSafeInteger ∨ maxSafeInteger < i) →
      convertValues (.vint i) = .vstr i.repr) := by
  constructor
  · intro h1 h2
    have hr : inSafeRange i = true := by
      simp [inSafeRange, h1, h2]
    simp [convertValues, hr]
  · intro h
    have hr : inSafeRange i = false := by
      simp only [inSafeRange, Bool.and_eq_false_iff, decide_eq_false_iff_not, not_le]
      omega
    simp [convertValues, hr]

/-- Witness for C4: 3 is in safe range and converts to the number 3;
2^53 = 9007199254740992 is outside and converts to its decimal string. -/
theorem integer_conversion_safe_range_witness :
    convertValues (.vint 3) = .vnum 3 ∧
    convertValues (.vint 9007199254740992) = .vstr "9007199254740992" := by
  constructor
  · exact (integer_conversion_safe_range 3).1 (by decide) (by decide)
  · have h := (integer_conversion_safe_range 9007199254740992).2 (by decide)
    rw [h]
    rfl

/-- C7 counterexample: the claim says a non-null input that is not an array
is returned unchanged, but line 170 tests `!data`, which is true for every
falsy value: the non-null non-array input `false` yields the empty sequence
instead of passing through. -/
theorem extractRecords_falsy_counterexample :
    extractRecords (.scalar (.vbool false)) = .records [] ∧
    extractRecords (.scalar (.vbool false)) ≠ .passthrough (.vbool false) := by
  refine ⟨rfl, ?_⟩
  intro h
  exact ExtractOut.noConfusion h

/-- C7 (amended): a falsy input (null, undefined, false, 0, NaN or the
empty string) yields the empty sequence; a truthy non-array input is
returned unchanged; an array input maps to an array of the same length
whose i-th element is a plain mapping keyed by the i-th record's field
names. -/
theorem extractRecords_passthrough_spec :
    (∀ v, truthy v = false → extractRecords (.scalar v) = .records []) ∧
    (∀ v, truthy v = true → extractRecords (.scalar v) = .passthrough v) ∧
    (∀ rs, extractRecords (.arr rs) = .records (rs.map extractRecord) ∧
      (rs.map extractRecord).length = rs.length ∧
      ∀ r, r ∈ rs → (extractRecord r).map Prod.fst = r.map Prod.fst) := by
  refine ⟨?_, ?_, ?_⟩
  · intro v hv
    simp [extractRecords, hv]
  · intro v hv
    simp [extractRecords, hv]
  · intro rs
    refine ⟨rfl, List.length_map _ _, ?_⟩
    intro r _
    simp [extractRecord, List.map_map, Function.comp]

/-- Witness for C7 (amended): the falsy input 0 yields the empty sequence;
the truthy non-array input "a" passes through unchanged. -/
theorem extractRecords_passthrough_spec_witness :
    extractRecords (.scalar (.vnum 0)) = .records [] ∧
    extractRecords (.scalar (.vstr "a")) = .passthrough (.vstr "a") :=
  ⟨extractRecords_passthrough_spec.1 (.vnum 0) (by decide),
   extractRecords_passthrough_spec.2.1 (.vstr "a") (by decide)⟩

/-- Grammar of plain JS values handled by removeEmptyArrays: the extracted
records it post-processes are plain data, and property reads can also
surface undefined, so undefined is part of this grammar. -/
inductive JVal where
  | jnull
  | jundefined
  | jbool (b : Bool)
  | jnum (n : Int)
  | jstr (s : String)
  | jarr (elems : List JVal)
  | jobj (fields : List (String × JVal))

/-- Property lookup on a plain object: the value of the first binding of
the key, undefined if absent. -/
def jsLookup : List (String × JVal) → String → JVal
  | [], _ => .jundefined
  | (k', v) :: fs, k => if k' == k then v else jsLookup fs k

/-- A string is a canonical array index when it is the decimal rendering of
a natural number (JS array access arr["01"] is undefined). -/
def parseIndex (k : String) : Option Nat :=
  match k.toNat? with
  | some n => if Nat.repr n == k then some n else none
  | none => none

/-- Property access on a JS array object: canonical indices return the
element, "length" returns the length, anything else is undefined. -/
def jsIndex (es : List JVal) (k : String) : JVal :=
  if k == "length" then .jnum es.length
  else
    match parseIndex k with
    | some n =>
        match es.get? n with
        | some v => v
        | none => .jundefined
    | none => .jundefined

/-- Property access on a primitive string (boxed): canonical indices return
the one-character string, "length" the length, anything else undefined. -/
def jsStrIndex (s : String) (k : String) : JVal :=
  if k == "length" then .jnum s.length
  else
    match parseIndex k with
    | some n =>
        match s.toList.get? n with
        | some c => .jstr (String.mk [c])
        | none => .jundefined
    | none => .jundefined

/-- JS property access receiver[key]: throws a TypeError (none) when the
receiver is null or undefined; numbers and booleans box to objects with no
own properties. -/
def jsGet : JVal → String → Option JVal
  | .jnull, _ => none
  | .jundefined, _ => none
  | .jobj fs, k => some (jsLookup fs k)
  | .jarr es, k => some (jsIndex es k)
  | .jstr s, k => some (jsStrIndex s k)
  | .jnum _, _ => some .jundefined
  | .jbool _, _ => some .jundefined

/-- JS truthiness on the plain grammar. -/
def jTruthy : JVal → Bool
  | .jnull => false
  | .jundefined => false
  | .jbool b => b
  | .jnum n => n != 0
  | .jstr s => s != ""
  | .jarr _ => true
  | .jobj _ => true

/-- The collapse guard of removeEmptyArrays (neo4j.service.ts lines
269-276) applied to the already-fetched value a = data[i][arrayKey]:
collapse exactly when a is truthy (every array is), is an array, its first
element data[i][arrayKey][0] is truthy, and that element's checkKey
property is strictly equal to null. The first element being truthy, its
property read cannot throw (jsGet is some). -/
def collapseCheck (a : JVal) (cK : String) : Bool :=
  match a with
  | .jarr (e :: _) =>
      jTruthy e &&
        (match jsGet e cK with
         | some .jnull => true
         | _ => false)
  | _ => false


/-- Result of a traversal step of removeEmptyArrays: the computed value, a
thrown TypeError (property access on null/undefined), or exhaustion of the
recursion-depth fuel. The fuel is an artifact of the encoding: the
traversal descends strictly along the input structure, so any fuel above
the input's size is never exhausted (removeFuel_no_fuel below), and the
exposed removeEmptyArrays supplies such fuel. -/
inductive WalkRes (α : Type) where
  | ok (a : α)
  | typeError
  | outOfFuel

mutual
/-- removeEmptyArrays (neo4j.service.ts lines 263-287), fuelled: the
indexed for loop over data; each element is processed in order (collapse
guard, then the for-in recursion over its array-valued fields); a thrown
TypeError aborts the whole call. The JS original mutates data in place and
returns it; the embedding returns the transformed structure. -/
def removeFuel : Nat → List JVal → String → String → WalkRes (List JVal)
  | 0, _, _, _ => .outOfFuel
  | _ + 1, [], _, _ => .ok []
  | fuel + 1, r :: rest, aK, cK =>
    match processFuel fuel r aK cK with
    | .ok r' =>
      (match removeFuel fuel rest aK cK with
       | .ok rest' => .ok (r' :: rest')
       | .typeError => .typeError
       | .outOfFuel => .outOfFuel)
    | .typeError => .typeError
    | .outOfFuel => .outOfFuel
termination_by structural fuel _ _ _ => fuel

/-- One loop iteration of removeEmptyArrays on data[i] = r, split by the
shape of r; each case inlines jsGet r arrayKey (the read on line 270):
null/undefined throw; booleans, numbers and strings give undefined, so the
guard fails and the for-in loop visits no array-valued field (a string's
own keys hold one-character strings), leaving r unchanged; objects read
the field and run the guarded for-in over their fields; arrays read the
canonical index (or length/undefined) and run the for-in over their
elements. The in-place assignment data[i][arrayKey] = [] is realized while
walking the fields: the arrayKey field (or pending index) is emitted as []
and the recursion into that fresh empty array (a no-op in JS) is elided. -/
def processFuel : Nat → JVal → String → String → WalkRes JVal
  | 0, _, _, _ => .outOfFuel
  | _ + 1, .jnull, _, _ => .typeError
  | _ + 1, .jundefined, _, _ => .typeError
  | _ + 1, .jbool b, _, _ => .ok (.jbool b)
  | _ + 1, .jnum n, _, _ => .ok (.jnum n)
  | _ + 1, .jstr s, _, _ => .ok (.jstr s)
  | fuel + 1, .jobj fs, aK, cK =>
    (match fieldsFuel fuel (collapseCheck (jsLookup fs aK) cK) aK cK fs with
     | .ok fs' => .ok (.jobj fs')
     | .typeError => .typeError
     | .outOfFuel => .outOfFuel)
  | fuel + 1, .jarr es, aK, cK =>
    (match elemsFuel fuel
        (if collapseCheck (jsIndex es aK) cK then parseIndex aK else none) aK cK es with
     | .ok es' => .ok (.jarr es')
     | .typeError => .typeError
     | .outOfFuel => .outOfFuel)
termination_by structural fuel _ _ _ => fuel

/-- The for-in loop over an object record's fields (lines 279-283), with
the pending collapse flag: when the flag is set, the arrayKey field has
been assigned the empty array; every other array-valued field is processed
by a recursive removeEmptyArrays call; non-array fields are untouched. -/
def fieldsFuel :
    Nat → Bool → String → String → List (String × JVal) → WalkRes (List (String × JVal))
  | 0, _, _, _, _ => .outOfFuel
  | _ + 1, _, _, _, [] => .ok []
  | fuel + 1, flag, aK, cK, (k, v) :: fs =>
    match flag && (k == aK), v with
    | true, _ =>
      (match fieldsFuel fuel flag aK cK fs with
       | .ok fs' => .ok ((k, .jarr []) :: fs')
       | .typeError => .typeError
       | .outOfFuel => .outOfFuel)
    | false, .jarr es =>
      (match removeFuel fuel es aK cK with
       | .ok es' =>
         (match fieldsFuel fuel flag aK cK fs with
          | .ok fs' => .ok ((k, .jarr es') :: fs')
          | .typeError => .typeError
          | .outOfFuel => .outOfFuel)
       | .typeError => .typeError
       | .outOfFuel => .outOfFuel)
    | false, .jnull =>
      (match fieldsFuel fuel flag aK cK fs with
       | .ok fs' => .ok ((k, .jnull) :: fs')
       | .typeError => .typeError
       | .outOfFuel => .outOfFuel)
    | false, .jundefined =>
      (match fieldsFuel fuel flag aK cK fs with
       | .ok fs' => .ok ((k, .jundefined) :: fs')
       | .typeError => .typeError
       | .outOfFuel => .outOfFuel)
    | false, .jbool b =>
      (match fieldsFuel fuel flag aK cK fs with
       | .ok fs' => .ok ((k, .jbool b) :: fs')
       | .typeError => .typeError
       | .outOfFuel => .outOfFuel)
    | false, .jnum n =>
      (match fieldsFuel fuel flag aK cK fs with
       | .ok fs' => .ok ((k, .jnum n) :: fs')
       | .typeError => .typeError
       | .outOfFuel => .outOfFuel)
    | false, .jstr s =>
      (match fieldsFuel fuel flag aK cK fs with
       | .ok fs' => .ok ((k, .jstr s) :: fs')
       | .typeError => .typeError
       | .outOfFuel => .outOfFuel)
    | false, .jobj fs2 =>
      (match fieldsFuel fuel flag aK cK fs with
       | .ok fs' => .ok ((k, .jobj fs2) :: fs')
       | .typeError => .typeError
       | .outOfFuel => .outOfFuel)
termination_by structural fuel _ _ _ _ => fuel

/-- The for-in loop when the record is itself an array: its own enumerable
keys are its indices, so array-valued elements are recursed into and every
other element is untouched; the Option Nat is the pending index assigned
[] by a collapse whose arrayKey parsed as a canonical index of this array
(the subsequent for-in visit of that index sees the fresh empty array). -/
def elemsFuel : Nat → Option Nat → String → String → List JVal → WalkRes (List JVal)
  | 0, _, _, _, _ => .outOfFuel
  | _ + 1, _, _, _, [] => .ok []
  | fuel + 1, some 0, aK, cK, _ :: rest =>
    (match elemsFuel fuel none aK cK rest with
     | .ok rest' => .ok (.jarr [] :: rest')
     | .typeError => .typeError
     | .outOfFuel => .outOfFuel)
  | fuel + 1, none, aK, cK, v :: rest =>
    (match v with
     | .jarr es =>
       (match removeFuel fuel es aK cK with
        | .ok es' =>
          (match elemsFuel fuel none aK cK rest with
           | .ok rest' => .ok (.jarr es' :: rest')
           | .typeError => .typeError
           | .outOfFuel => .outOfFuel)
        | .typeError => .typeError
        | .outOfFuel => .outOfFuel)
     | .jnull =>
       (match elemsFuel fuel none aK cK rest with
        | .ok rest' => .ok (.jnull :: rest')
        | .typeError => .typeError
        | .outOfFuel => .outOfFuel)
     | .jundefined =>
       (match elemsFuel fuel none aK cK rest with
        | .ok rest' => .ok (.jundefined :: rest')
        | .typeError => .typeError
        | .outOfFuel => .outOfFuel)
     | .jbool b =>
       (match elemsFuel fuel none aK cK rest with
        | .ok rest' => .ok (.jbool b :: rest')
        | .typeError => .typeError
        | .outOfFuel => .outOfFuel)
     | .jnum n =>
       (match elemsFuel fuel none aK cK rest with
        | .ok rest' => .ok (.jnum n :: rest')
        | .typeError => .typeError
        | .outOfFuel => .outOfFuel)
     | .jstr s =>
       (match elemsFuel fuel none aK cK rest with
        | .ok rest' => .ok (.jstr s :: rest')
        | .typeError => .typeError
        | .outOfFuel => .outOfFuel)
     | .jobj fs =>
       (match elemsFuel fuel none aK cK rest with
        | .ok rest' => .ok (.jobj fs :: rest')
        | .typeError => .typeError
        | .outOfFuel => .outOfFuel))
  | fuel + 1, some (n + 1), aK, cK, v :: rest =>
    (match v with
     | .jarr es =>
       (match removeFuel fuel es aK cK with
        | .ok es' =>
          (match elemsFuel fuel (some n) aK cK rest with
           | .ok rest' => .ok (.jarr es' :: rest')
           | .typeError => .typeError
           | .outOfFuel => .outOfFuel)
        | .typeError => .typeError
        | .outOfFuel => .outOfFuel)
     | .jnull =>
       (match elemsFuel fuel (some n) aK cK rest with
        | .ok rest' => .ok (.jnull :: rest')
        | .typeError => .typeError
        | .outOfFuel => .outOfFuel)
     | .jundefined =>
       (match elemsFuel fuel (some n) aK cK rest with
        | .ok rest' => .ok (.jundefined :: rest')
        | .typeError => .typeError
        | .outOfFuel => .outOfFuel)
     | .jbool b =>
       (match elemsFuel fuel (some n) aK cK rest with
        | .ok rest' => .ok (.jbool b :: rest')
        | .typeError => .typeError
        | .outOfFuel => .outOfFuel)
     | .jnum n2 =>
       (match elemsFuel fuel (some n) aK cK rest with
        | .ok rest' => .ok (.jnum n2 :: rest')
        | .typeError => .typeError
        | .outOfFuel => .outOfFuel)
     | .jstr s =>
       (match elemsFuel fuel (some n) aK cK rest with
        | .ok rest' => .ok (.jstr s :: rest')
        | .typeError => .typeError
        | .outOfFuel => .outOfFuel)
     | .jobj fs =>
       (match elemsFuel fuel (some n) aK cK rest with
        | .ok rest' => .ok (.jobj fs :: rest')
        | .typeError => .typeError
        | .outOfFuel => .outOfFuel))
termination_by structural fuel _ _ _ _ => fuel
end

mutual
/-- Executable structural size of a plain JS value, used to pick a
sufficient fuel: the traversal descends strictly along this measure. -/
def jsize : JVal → Nat
  | .jarr es => 1 + jsizeList es
  | .jobj fs => 1 + jsizeFields fs
  | .jnull => 1
  | .jundefined => 1
  | .jbool _ => 1
  | .jnum _ => 1
  | .jstr _ => 1
termination_by structural v => v

def jsizeList : List JVal → Nat
  | [] => 1
  | v :: rest => 1 + jsize v + jsizeList rest
termination_by structural l => l

def jsizeFields : List (String × JVal) → Nat
  | [] => 1
  | (_, v) :: fs => 1 + jsize v + jsizeFields fs
termination_by structural l => l
end

/-- removeEmptyArrays with fuel strictly above the input's size; that fuel
is never exhausted (removeFuel_no_fuel below), so the outcome is .ok or
.typeError exactly as the JS original returns or throws. -/
def removeEmptyArrays (l : List JVal) (aK cK : String) : WalkRes (List JVal) :=
  removeFuel (jsizeList l + 1) l aK cK

/-- null or undefined: property access on these throws. -/
def isNullish : JVal → Bool
  | .jnull => true
  | .jundefined => true
  | _ => false

mutual
/-- Sufficient safety condition for the removeEmptyArrays traversal: no
array anywhere in the value has a null/undefined element (null-valued
object fields are harmless — the traversal never reads properties of a
field unless that field is an array element). -/
def noNullElems : JVal → Bool
  | .jarr es => noNullElemsList es
  | .jobj fs => noNullElemsFields fs
  | .jnull => true
  | .jundefined => true
  | .jbool _ => true
  | .jnum _ => true
  | .jstr _ => true
termination_by structural v => v

def noNullElemsList : List JVal → Bool
  | [] => true
  | v :: rest => !(isNullish v) && noNullElems v && noNullElemsList rest
termination_by structural l => l

def noNullElemsFields : List (String × JVal) → Bool
  | [] => true
  | (_, v) :: fs => noNullElems v && noNullElemsFields fs
termination_by structural l => l
end

/-- Fuel above the structural size is never exhausted: the traversal only
ever descends to strictly smaller parts, spending one fuel unit per level. -/
theorem removeFuel_no_fuel : ∀ fuel : Nat,
    (∀ l aK cK, jsizeList l < fuel → removeFuel fuel l aK cK ≠ .outOfFuel) ∧
    (∀ (r : JVal) aK cK, jsize r < fuel → processFuel fuel r aK cK ≠ .outOfFuel) ∧
    (∀ fs flag aK cK, jsizeFields fs < fuel →
      fieldsFuel fuel flag aK cK fs ≠ .outOfFuel) ∧
    (∀ es subst aK cK, jsizeList es < fuel → elemsFuel fuel subst aK cK es ≠ .outOfFuel) := by
  intro fuel
  induction fuel with
  | zero =>
      refine ⟨?_, ?_, ?_, ?_⟩ <;> intros <;> omega
  | succ fuel IH =>
  obtain ⟨IHl, IHr, IHf, IHe⟩ := IH
  refine ⟨?_, ?_, ?_, ?_⟩
  · intro l aK cK hsz
    cases l with
    | nil => simp [removeFuel]
    | cons r rest =>
        simp only [jsizeList] at hsz
        have h1 := IHr r aK cK (by omega)
        have h2 := IHl rest aK cK (by omega)
        simp only [removeFuel]
        cases hp : processFuel fuel r aK cK with
        | ok r' =>
            cases hr : removeFuel fuel rest aK cK with
            | ok rest' => simp [*]
            | typeError => simp [*]
            | outOfFuel => exact absurd hr h2
        | typeError => simp [*]
        | outOfFuel => exact absurd hp h1
  · intro r aK cK hsz
    cases r with
    | jnull => simp [processFuel]
    | jundefined => simp [processFuel]
    | jbool b => simp [processFuel]
    | jnum n => simp [processFuel]
    | jstr s => simp [processFuel]
    | jobj fs =>
        simp only [jsize] at hsz
        have h1 := IHf fs (collapseCheck (jsLookup fs aK) cK) aK cK (by omega)
        simp only [processFuel]
        cases hf : fieldsFuel fuel (collapseCheck (jsLookup fs aK) cK) aK cK fs with
        | ok fs' => simp [*]
        | typeError => simp [*]
        | outOfFuel => exact absurd hf h1
    | jarr es =>
        simp only [jsize] at hsz
        have h1 := IHe es
          (if collapseCheck (jsIndex es aK) cK then parseIndex aK else none)
          aK cK (by omega)
        simp only [processFuel]
        cases he : elemsFuel fuel
            (if collapseCheck (jsIndex es aK) cK then parseIndex aK else none) aK cK es with
        | ok es' => simp [*]
        | typeError => simp [*]
        | outOfFuel => exact absurd he h1
  · intro fs flag aK cK hsz
    cases fs with
    | nil => simp [fieldsFuel]
    | cons kv fs =>
        obtain ⟨k, v⟩ := kv
        simp only [jsizeFields] at hsz
        have h1 := IHf fs flag aK cK (by omega)
        simp only [fieldsFuel]
        rcases Bool.dichotomy (flag && (k == aK)) with hc | hc
        · simp only [hc]
          cases v with
          | jarr es =>
              simp only [jsize] at hsz
              have h2 := IHl es aK cK (by omega)
              cases hr : removeFuel fuel es aK cK with
              | ok es' =>
                  cases hf : fieldsFuel fuel flag aK cK fs with
                  | ok fs' => simp [*]
                  | typeError => simp [*]
                  | outOfFuel => exact absurd hf h1
              | typeError => simp [*]
              | outOfFuel => exact absurd hr h2
          | jnull =>
              cases hf : fieldsFuel fuel flag aK cK fs with
              | ok fs' => simp [*]
              | typeError => simp [*]
              | outOfFuel => exact absurd hf h1
          | jundefined =>
              cases hf : fieldsFuel fuel flag aK cK fs with
              | ok fs' => simp [*]
              | typeError => simp [*]
              | outOfFuel => exact absurd hf h1
          | jbool b =>
              cases hf : fieldsFuel fuel flag aK cK fs with
              | ok fs' => simp [*]
              | typeError => simp [*]
              | outOfFuel => exact absurd hf h1
          | jnum n =>
              cases hf : fieldsFuel fuel flag aK cK fs with
              | ok fs' => simp [*]
              | typeError => simp [*]
              | outOfFuel => exact absurd hf h1
          | jstr s =>
              cases hf : fieldsFuel fuel flag aK cK fs with
              | ok fs' => simp [*]
              | typeError => simp [*]
              | outOfFuel => exact absurd hf h1
          | jobj fs2 =>
              cases hf : fieldsFuel fuel flag aK cK fs with
              | ok fs' => simp [*]
              | typeError => simp [*]
              | outOfFuel => exact absurd hf h1
        · simp only [hc]
          cases hf : fieldsFuel fuel flag aK cK fs with
          | ok fs' => simp [*]
          | typeError => simp [*]
          | outOfFuel => exact absurd hf h1
  · intro es subst aK cK hsz
    cases es with
    | nil =>
        cases subst with
        | none => simp [elemsFuel]
        | some n => cases n <;> simp [elemsFuel]
    | cons v rest =>
        simp only [jsizeList] at hsz
        cases subst with
        | none =>
            have h1 := IHe rest none aK cK (by omega)
            simp only [elemsFuel]
            cases v with
            | jarr es2 =>
                simp only [jsize] at hsz
                have h2 := IHl es2 aK cK (by omega)
                cases hr : removeFuel fuel es2 aK cK with
                | ok es2' =>
                    cases he : elemsFuel fuel none aK cK rest with
                    | ok rest' => simp [*]
                    | typeError => simp [*]
                    | outOfFuel => exact absurd he h1
                | typeError => simp [*]
                | outOfFuel => exact absurd hr h2
            | jnull =>
                cases he : elemsFuel fuel none aK cK rest with
                | ok rest' => simp [*]
                | typeError => simp [*]
                | outOfFuel => exact absurd he h1
            | jundefined =>
                cases he : elemsFuel fuel none aK cK rest with
                | ok rest' => simp [*]
                | typeError => simp [*]
                | outOfFuel => exact absurd he h1
            | jbool b =>
                cases he : elemsFuel fuel none aK cK rest with
                | ok rest' => simp [*]
                | typeError => simp [*]
                | outOfFuel => exact absurd he h1
            | jnum n =>
                cases he : elemsFuel fuel none aK cK rest with
                | ok rest' => simp [*]
                | typeError => simp [*]
                | outOfFuel => exact absurd he h1
            | jstr s =>
                cases he : elemsFuel fuel none aK cK rest with
                | ok rest' => simp [*]
                | typeError => simp [*]
                | outOfFuel => exact absurd he h1
            | jobj fs =>
                cases he : elemsFuel fuel none aK cK rest with
                | ok rest' => simp [*]
                | typeError => simp [*]
                | outOfFuel => exact absurd he h1
        | some n =>
            cases n with
            | zero =>
                have h1 := IHe rest none aK cK (by omega)
                simp only [elemsFuel]
                cases he : elemsFuel fuel none aK cK rest with
                | ok rest' => simp [*]
                | typeError => simp [*]
                | outOfFuel => exact absurd he h1
            | succ n =>
                have h1 := IHe rest (some n) aK cK (by omega)
                simp only [elemsFuel]
                cases v with
                | jarr es2 =>
                    simp only [jsize] at hsz
                    have h2 := IHl es2 aK cK (by omega)
                    cases hr : removeFuel fuel es2 aK cK with
                    | ok es2' =>
                        cases he : elemsFuel fuel (some n) aK cK rest with
                        | ok rest' => simp [*]
                        | typeError => simp [*]
                        | outOfFuel => exact absurd he h1
                    | typeError => simp [*]
                    | outOfFuel => exact absurd hr h2
                | jnull =>
                    cases he : elemsFuel fuel (some n) aK cK rest with
                    | ok rest' => simp [*]
                    | typeError => simp [*]
                    | outOfFuel => exact absurd he h1
                | jundefined =>
                    cases he : elemsFuel fuel (some n) aK cK rest with
                    | ok rest' => simp [*]
                    | typeError => simp [*]
                    | outOfFuel => exact absurd he h1
                | jbool b =>
                    cases he : elemsFuel fuel (some n) aK cK rest with
                    | ok rest' => simp [*]
                    | typeError => simp [*]
                    | outOfFuel => exact absurd he h1
                | jnum n2 =>
                    cases he : elemsFuel fuel (some n) aK cK rest with
                    | ok rest' => simp [*]
                    | typeError => simp [*]
                    | outOfFuel => exact absurd he h1
                | jstr s =>
                    cases he : elemsFuel fuel (some n) aK cK rest with
                    | ok rest' => simp [*]
                    | typeError => simp [*]
                    | outOfFuel => exact absurd he h1
                | jobj fs =>
                    cases he : elemsFuel fuel (some n) aK cK rest with
                    | ok rest' => simp [*]
                    | typeError => simp [*]
                    | outOfFuel => exact absurd he h1

/-- On null-safe inputs (no null/undefined element in any reachable array)
the traversal completes with a value: no TypeError and no fuel exhaustion. -/
theorem removeFuel_total : ∀ fuel : Nat,
    (∀ l aK cK, jsizeList l < fuel → noNullElemsList l = true →
      ∃ out, removeFuel fuel l aK cK = .ok out) ∧
    (∀ (r : JVal) aK cK, jsize r < fuel → isNullish r = false → noNullElems r = true →
      ∃ v, processFuel fuel r aK cK = .ok v) ∧
    (∀ fs flag aK cK, jsizeFields fs < fuel → noNullElemsFields fs = true →
      ∃ fs2, fieldsFuel fuel flag aK cK fs = .ok fs2) ∧
    (∀ es subst aK cK, jsizeList es < fuel → noNullElemsList es = true →
      ∃ es2, elemsFuel fuel subst aK cK es = .ok es2) := by
  intro fuel
  induction fuel with
  | zero =>
      refine ⟨?_, ?_, ?_, ?_⟩ <;> intros <;> omega
  | succ fuel IH =>
  obtain ⟨IHl, IHr, IHf, IHe⟩ := IH
  refine ⟨?_, ?_, ?_, ?_⟩
  · intro l aK cK hsz h
    cases l with
    | nil => exact ⟨[], by simp [removeFuel]⟩
    | cons r rest =>
        simp only [noNullElemsList, Bool.and_eq_true, Bool.not_eq_true'] at h
        obtain ⟨⟨hnn, hne⟩, hrest⟩ := h
        simp only [jsizeList] at hsz
        obtain ⟨r', hp⟩ := IHr r aK cK (by omega) hnn hne
        obtain ⟨rest', hr⟩ := IHl rest aK cK (by omega) hrest
        exact ⟨r' :: rest', by simp [removeFuel, hp, hr]⟩
  · intro r aK cK hsz hnn hne
    cases r with
    | jnull => exact absurd hnn (by simp [isNullish])
    | jundefined => exact absurd hnn (by simp [isNullish])
    | jbool b => exact ⟨.jbool b, by simp [processFuel]⟩
    | jnum n => exact ⟨.jnum n, by simp [processFuel]⟩
    | jstr s => exact ⟨.jstr s, by simp [processFuel]⟩
    | jobj fs =>
        simp only [noNullElems] at hne
        simp only [jsize] at hsz
        obtain ⟨fs', hf⟩ := IHf fs (collapseCheck (jsLookup fs aK) cK) aK cK (by omega) hne
        exact ⟨.jobj fs', by simp [processFuel, hf]⟩
    | jarr es =>
        simp only [noNullElems] at hne
        simp only [jsize] at hsz
        obtain ⟨es', he⟩ := IHe es
          (if collapseCheck (jsIndex es aK) cK then parseIndex aK else none)
          aK cK (by omega) hne
        exact ⟨.jarr es', by simp [processFuel, he]⟩
  · intro fs flag aK cK hsz h
    cases fs with
    | nil => exact ⟨[], by simp [fieldsFuel]⟩
    | cons kv fs =>
        obtain ⟨k, v⟩ := kv
        simp only [noNullElemsFields, Bool.and_eq_true] at h
        obtain ⟨hv, hfs⟩ := h
        simp only [jsizeFields] at hsz
        obtain ⟨fs', hf⟩ := IHf fs flag aK cK (by omega) hfs
        rcases Bool.dichotomy (flag && (k == aK)) with hc | hc
        · cases v with
          | jarr es =>
              simp only [noNullElems] at hv
              simp only [jsize] at hsz
              obtain ⟨es', hr⟩ := IHl es aK cK (by omega) hv
              exact ⟨(k, .jarr es') :: fs', by simp [fieldsFuel, hc, hr, hf]⟩
          | jnull => exact ⟨(k, .jnull) :: fs', by simp [fieldsFuel, hc, hf]⟩
          | jundefined => exact ⟨(k, .jundefined) :: fs', by simp [fieldsFuel, hc, hf]⟩
          | jbool b => exact ⟨(k, .jbool b) :: fs', by simp [fieldsFuel, hc, hf]⟩
          | jnum n => exact ⟨(k, .jnum n) :: fs', by simp [fieldsFuel, hc, hf]⟩
          | jstr s => exact ⟨(k, .jstr s) :: fs', by simp [fieldsFuel, hc, hf]⟩
          | jobj fs2 => exact ⟨(k, .jobj fs2) :: fs', by simp [fieldsFuel, hc, hf]⟩
        · exact ⟨(k, .jarr []) :: fs', by simp [fieldsFuel, hc, hf]⟩
  · intro es subst aK cK hsz h
    cases es with
    | nil =>
        refine ⟨[], ?_⟩
        cases subst with
        | none => simp [elemsFuel]
        | some n => cases n <;> simp [elemsFuel]
    | cons v rest =>
        simp only [noNullElemsList, Bool.and_eq_true, Bool.not_eq_true'] at h
        obtain ⟨⟨_, hv⟩, hrest⟩ := h
        simp only [jsizeList] at hsz
        cases subst with
        | none =>
            obtain ⟨rest', he⟩ := IHe rest none aK cK (by omega) hrest
            cases v with
            | jarr es2 =>
                simp only [noNullElems] at hv
                simp only [jsize] at hsz
                obtain ⟨es2', hr⟩ := IHl es2 aK cK (by omega) hv
                exact ⟨.jarr es2' :: rest', by simp [elemsFuel, hr, he]⟩
            | jnull => exact ⟨.jnull :: rest', by simp [elemsFuel, he]⟩
            | jundefined => exact ⟨.jundefined :: rest', by simp [elemsFuel, he]⟩
            | jbool b => exact ⟨.jbool b :: rest', by simp [elemsFuel, he]⟩
            | jnum n => exact ⟨.jnum n :: rest', by simp [elemsFuel, he]⟩
            | jstr s => exact ⟨.jstr s :: rest', by simp [elemsFuel, he]⟩
            | jobj fs => exact ⟨.jobj fs :: rest', by simp [elemsFuel, he]⟩
        | some n =>
            cases n with
            | zero =>
                obtain ⟨rest', he⟩ := IHe rest none aK cK (by omega) hrest
                exact ⟨.jarr [] :: rest', by simp [elemsFuel, he]⟩
            | succ n =>
                obtain ⟨rest', he⟩ := IHe rest (some n) aK cK (by omega) hrest
                cases v with
                | jarr es2 =>
                    simp only [noNullElems] at hv
                    simp only [jsize] at hsz
                    obtain ⟨es2', hr⟩ := IHl es2 aK cK (by omega) hv
                    exact ⟨.jarr es2' :: rest', by simp [elemsFuel, hr, he]⟩
                | jnull => exact ⟨.jnull :: rest', by simp [elemsFuel, he]⟩
                | jundefined => exact ⟨.jundefined :: rest', by simp [elemsFuel, he]⟩
                | jbool b => exact ⟨.jbool b :: rest', by simp [elemsFuel, he]⟩
                | jnum n2 => exact ⟨.jnum n2 :: rest', by simp [elemsFuel, he]⟩
                | jstr s => exact ⟨.jstr s :: rest', by simp [elemsFuel, he]⟩
                | jobj fs => exact ⟨.jobj fs :: rest', by simp [elemsFuel, he]⟩

/-- A returned list has the input's length (one transformed record per
record). -/
theorem removeFuel_length : ∀ fuel : Nat, ∀ (l : List JVal) aK cK out,
    removeFuel fuel l aK cK = .ok out → out.length = l.length := by
  intro fuel
  induction fuel with
  | zero => intro l aK cK out h; simp [removeFuel] at h
  | succ fuel IH =>
      intro l aK cK out h
      cases l with
      | nil =>
          simp only [removeFuel] at h
          cases h
          rfl
      | cons r rest =>
          simp only [removeFuel] at h
          cases hp : processFuel fuel r aK cK with
          | ok r' =>
              rw [hp] at h
              cases hr : removeFuel fuel rest aK cK with
              | ok rest' =>
                  rw [hr] at h
                  cases h
                  simp [IH rest aK cK rest' hr]
              | typeError => rw [hr] at h; exact WalkRes.noConfusion h
              | outOfFuel => rw [hr] at h; exact WalkRes.noConfusion h
          | typeError => rw [hp] at h; exact WalkRes.noConfusion h
          | outOfFuel => rw [hp] at h; exact WalkRes.noConfusion h

/-- Totality of removeEmptyArrays on null-safe inputs. -/
theorem removeEmptyArrays_total (l : List JVal) (aK cK : String)
    (h : noNullElemsList l = true) : ∃ out, removeEmptyArrays l aK cK = .ok out :=
  (removeFuel_total (jsizeList l + 1)).1 l aK cK (by omega) h

/-- removeEmptyArrays never exhausts its fuel: its outcome is a value or a
thrown TypeError, exactly the JS behaviours. -/
theorem removeEmptyArrays_no_fuel (l : List JVal) (aK cK : String) :
    removeEmptyArrays l aK cK ≠ .outOfFuel :=
  (removeFuel_no_fuel (jsizeList l + 1)).1 l aK cK (by omega)

/-- When removeEmptyArrays returns, the output has the input's length. -/
theorem removeEmptyArrays_length (l : List JVal) (aK cK : String) (out : List JVal)
    (h : removeEmptyArrays l aK cK = .ok out) : out.length = l.length :=
  removeFuel_length (jsizeList l + 1) l aK cK out h

/-- The collapse guard holds exactly when the fetched value is a non-empty
array whose first element is truthy and whose first element's checkKey
property is strictly equal to null. -/
theorem collapseCheck_iff (a : JVal) (cK : String) :
    collapseCheck a cK = true ↔
      ∃ e es, a = .jarr (e :: es) ∧ jTruthy e = true ∧ jsGet e cK = some .jnull := by
  constructor
  · intro h
    cases a with
    | jarr es =>
        cases es with
        | nil => simp [collapseCheck] at h
        | cons e es =>
            simp only [collapseCheck, Bool.and_eq_true] at h
            obtain ⟨ht, hm⟩ := h
            refine ⟨e, es, rfl, ht, ?_⟩
            cases hg : jsGet e cK with
            | none => rw [hg] at hm; simp at hm
            | some v =>
                rw [hg] at hm
                cases v <;> simp_all
    | jnull => simp [collapseCheck] at h
    | jundefined => simp [collapseCheck] at h
    | jbool b => simp [collapseCheck] at h
    | jnum n => simp [collapseCheck] at h
    | jstr s => simp [collapseCheck] at h
    | jobj fs => simp [collapseCheck] at h
  · rintro ⟨e, es, rfl, ht, hg⟩
    simp [collapseCheck, ht, hg]

/-- C5 counterexample: the claim asserts that for every input list the
operation collapses and recurses, mutating and returning the input; but on
[\x7ba: [null]\x7d] (no collapse applies anywhere, so the claim demands the
input back unchanged) the recursive pass reaches the null element of the
array field and reads null[arrayKey] (line 270), which throws a TypeError —
nothing is returned. -/
theorem removeEmptyArrays_null_element_throws :
    removeEmptyArrays [.jobj [("a", .jarr [.jnull])]] "friends" "name" = .typeError ∧
    removeEmptyArrays [.jobj [("a", .jarr [.jnull])]] "friends" "name"
      ≠ .ok [.jobj [("a", .jarr [.jnull])]] := by
  refine ⟨rfl, ?_⟩
  intro h
  exact WalkRes.noConfusion h

/-- C5 (amended): provided every element of every array reached by the
traversal is non-null/non-undefined (otherwise a TypeError is thrown and
nothing is returned), removeEmptyArrays behaves as claimed: record[arrayKey]
is replaced by the empty array exactly when it is a non-empty array whose
(truthy) first element's checkKey property is strictly null; the same
collapse is applied recursively to every array-valued field regardless of
name; the returned list transforms the input elementwise. Conjuncts: the
claim's two concrete examples, the exact collapse condition, totality on
null-safe inputs, and elementwise length preservation. -/
theorem removeEmptyArrays_collapse_spec :
    (removeEmptyArrays
        [.jobj [("friends", .jarr [.jobj [("name", .jnull), ("address", .jnull)]])]]
        "friends" "name"
      = .ok [.jobj [("friends", .jarr [])]]) ∧
    (removeEmptyArrays [.jobj [("friends", .jarr [.jobj [("name", .jstr "Bob")]])]]
        "friends" "name"
      = .ok [.jobj [("friends", .jarr [.jobj [("name", .jstr "Bob")]])]]) ∧
    (∀ a cK, collapseCheck a cK = true ↔
      ∃ e es, a = .jarr (e :: es) ∧ jTruthy e = true ∧ jsGet e cK = some .jnull) ∧
    (∀ l aK cK, noNullElemsList l = true →
      ∃ out, removeEmptyArrays l aK cK = .ok out) ∧
    (∀ l aK cK out, removeEmptyArrays l aK cK = .ok out → out.length = l.length) :=
  ⟨rfl, rfl, collapseCheck_iff, removeEmptyArrays_total,
   fun l aK cK out h => removeEmptyArrays_length l aK cK out h⟩

/-- Witness for C5 (amended) at concrete inputs: the totality conjunct
applied to a null-safe input, and the collapse condition applied to a
concrete guard instance. -/
theorem removeEmptyArrays_collapse_spec_witness :
    (∃ out, removeEmptyArrays [.jobj [("x", .jarr [.jobj [("name", .jbool true)]])]]
      "friends" "name" = .ok out) ∧
    collapseCheck (.jarr [.jobj [("name", .jnull)]]) "name" = true := by
  constructor
  · exact removeEmptyArrays_collapse_spec.2.2.2.1
      [.jobj [("x", .jarr [.jobj [("name", .jbool true)]])]] "friends" "name" rfl
  · exact (removeEmptyArrays_collapse_spec.2.2.1 (.jarr [.jobj [("name", .jnull)]]) "name").2
      ⟨.jobj [("name", .jnull)], [], rfl, rfl, rfl⟩

/-- C10 counterexample: the claim says removeEmptyArrays is total and never
throws, and in particular leaves a [null] array unchanged; but on
[\x7bfriends: [null]\x7d] the guard does skip the collapse, and then the
for-in recursion enters the array field and reads null[arrayKey], throwing
a TypeError — the operation returns nothing at all. -/
theorem removeEmptyArrays_not_total :
    removeEmptyArrays [.jobj [("friends", .jarr [.jnull])]] "friends" "name"
      = .typeError ∧
    removeEmptyArrays [.jobj [("friends", .jarr [.jnull])]] "friends" "name"
      ≠ .ok [.jobj [("friends", .jarr [.jnull])]] := by
  refine ⟨rfl, ?_⟩
  intro h
  exact WalkRes.noConfusion h

/-- C10 (amended): when record[arrayKey] is an array whose first element is
falsy, the guard rejects the collapse without reading the element's
checkKey property, so the array is not collapsed — in particular [null] is
never collapsed to []; for the falsy non-null first elements 0, false and
"" the whole operation completes with the input unchanged. The operation is
however not total: a null first element makes the subsequent for-in
recursion throw. -/
theorem falsy_first_element_guard :
    (∀ cK e es, jTruthy e = false → collapseCheck (.jarr (e :: es)) cK = false) ∧
    (removeEmptyArrays [.jobj [("friends", .jarr [.jnum 0])]] "friends" "name"
      = .ok [.jobj [("friends", .jarr [.jnum 0])]]) ∧
    (removeEmptyArrays [.jobj [("friends", .jarr [.jbool false])]] "friends" "name"
      = .ok [.jobj [("friends", .jarr [.jbool false])]]) ∧
    (removeEmptyArrays [.jobj [("friends", .jarr [.jstr ""])]] "friends" "name"
      = .ok [.jobj [("friends", .jarr [.jstr ""])]]) ∧
    (removeEmptyArrays [.jobj [("friends", .jarr [.jnull])]] "friends" "name"
      = .typeError) := by
  refine ⟨?_, rfl, rfl, rfl, rfl⟩
  intro cK e es h
  simp [collapseCheck, h]

/-- Witness for C10 (amended): the guard conjunct applied to the falsy
first element 0. -/
theorem falsy_first_element_guard_witness :
    collapseCheck (.jarr [.jnum 0]) "name" = false :=
  falsy_first_element_guard.1 "name" (.jnum 0) [] (by simp [jTruthy])
/-- The result of running the statement loop of multipleStatementsRaw
(neo4j.service.ts lines 139-147) inside the open transaction: each
statement is txc.run in order against the transaction state; the first
driver error aborts the loop. A statement is modelled by its semantics: a
function from transaction state to either an error or a result paired with
the updated state. -/
def runStatements {σ ε ρ : Type} :
    List (σ → Except ε (ρ × σ)) → σ → Except ε (List ρ × σ)
  | [], db => .ok ([], db)
  | f :: rest, db =>
    match f db with
    | .error e => .error e
    | .ok (r, db') =>
      match runStatements rest db' with
      | .error e => .error e
      | .ok (rs, db'') => .ok (r :: rs, db'')

/-- Observable outcome of a multipleStatementsRaw call: the value returned
or error rethrown, the durable database state after commit/rollback, and
how many times the session was closed. -/
structure MultiOutcome (σ ε ρ : Type) where
  result : Except ε (List ρ)
  finalDb : σ
  sessionClosed : Nat

/-- multipleStatementsRaw (neo4j.service.ts lines 132-154): acquire a
session, begin a transaction, try running all statements in order and
commit; on any error roll back and rethrow; finally close the session.
Commit publishes the transaction state as the durable state; rollback
leaves the durable state untouched; the finally clause closes the session
on both paths. -/
def multipleStatementsRaw {σ ε ρ : Type}
    (stmts : List (σ → Except ε (ρ × σ))) (db : σ) : MultiOutcome σ ε ρ :=
  match runStatements stmts db with
  | .ok (rs, db') => ⟨.ok rs, db', 1⟩
  | .error e => ⟨.error e, db, 1⟩

/-- A failing run is produced by the first failing statement, with every
earlier statement having succeeded in order. -/
theorem runStatements_error_decomp {σ ε ρ : Type} :
    (stmts : List (σ → Except ε (ρ × σ))) → ∀ (db : σ) e,
      runStatements stmts db = .error e →
      ∃ k, ∃ h : k < stmts.length, ∃ rs dbk,
        runStatements (stmts.take k) db = .ok (rs, dbk) ∧
        stmts.get ⟨k, h⟩ dbk = .error e
  | [], db, e, h => by simp [runStatements] at h
  | f :: rest, db, e, h => by
      cases hf : f db with
      | error e' =>
          simp only [runStatements, hf] at h
          cases h
          exact ⟨0, by simp, [], db, by simp [runStatements], hf⟩
      | ok p =>
          obtain ⟨r, db'⟩ := p
          simp only [runStatements, hf] at h
          cases hrest : runStatements rest db' with
          | error e' =>
              rw [hrest] at h
              cases h
              obtain ⟨k, hk, rs, dbk, hpre, hfail⟩ :=
                runStatements_error_decomp rest db' e hrest
              refine ⟨k + 1, by simpa using hk, r :: rs, dbk, ?_, by simpa using hfail⟩
              simp only [List.take_succ_cons, runStatements, hf, hpre]
          | ok q =>
              rw [hrest] at h
              exact Except.noConfusion h

/-- A successful run returns one result per statement. -/
theorem runStatements_ok_length {σ ε ρ : Type} :
    (stmts : List (σ → Except ε (ρ × σ))) → ∀ (db : σ) rs db',
      runStatements stmts db = .ok (rs, db') → rs.length = stmts.length
  | [], db, rs, db', h => by
      simp only [runStatements] at h
      cases h
      rfl
  | f :: rest, db, rs, db', h => by
      cases hf : f db with
      | error e => simp [runStatements, hf] at h
      | ok p =>
          obtain ⟨r, db1⟩ := p
          simp only [runStatements, hf] at h
          cases hrest : runStatements rest db1 with
          | error e => rw [hrest] at h; exact Except.noConfusion h
          | ok q =>
              obtain ⟨rs1, db2⟩ := q
              rw [hrest] at h
              cases h
              simpa using runStatements_ok_length rest db1 rs1 _ hrest

/-- C6: a multi-statement sequence runs in one transaction: the session is
released exactly once on every exit path; if the run fails, the error
propagated to the caller is the error of the first failing statement (all
earlier statements having succeeded in order) and the durable state is the
original one — no statement's effect is retained; if all statements
succeed, the results are returned in order, one per statement, and the
whole threaded effect commits as one unit. -/
theorem multipleStatements_transactional {σ ε ρ : Type}
    (stmts : List (σ → Except ε (ρ × σ))) (db : σ) :
    (multipleStatementsRaw stmts db).sessionClosed = 1 ∧
    (∀ e, (multipleStatementsRaw stmts db).result = .error e →
      (multipleStatementsRaw stmts db).finalDb = db ∧
      ∃ k, ∃ h : k < stmts.length, ∃ rs dbk,
        runStatements (stmts.take k) db = .ok (rs, dbk) ∧
        stmts.get ⟨k, h⟩ dbk = .error e) ∧
    (∀ rs, (multipleStatementsRaw stmts db).result = .ok rs →
      rs.length = stmts.length ∧
      runStatements stmts db = .ok (rs, (multipleStatementsRaw stmts db).finalDb)) := by
  refine ⟨?_, ?_, ?_⟩
  · cases h : runStatements stmts db with
    | error e => simp [multipleStatementsRaw, h]
    | ok p => simp [multipleStatementsRaw, h]
  · intro e he
    cases h : runStatements stmts db with
    | error e' =>
        have hfin : (multipleStatementsRaw stmts db).finalDb = db := by
          simp [multipleStatementsRaw, h]
        have he' : e' = e := by
          simp only [multipleStatementsRaw, h] at he
          cases he
          rfl
        subst he'
        exact ⟨hfin, runStatements_error_decomp stmts db e' h⟩
    | ok p =>
        simp only [multipleStatementsRaw, h] at he
        exact Except.noConfusion he
  · intro rs hrs
    cases h : runStatements stmts db with
    | error e =>
        simp only [multipleStatementsRaw, h] at hrs
        exact Except.noConfusion hrs
    | ok p =>
        obtain ⟨rs1, db1⟩ := p
        simp only [multipleStatementsRaw, h] at hrs ⊢
        injection hrs with h1
        subst h1
        exact ⟨runStatements_ok_length stmts db _ _ h, rfl⟩

/-- A concrete succeeding statement on a Nat-counter database. -/
def stmtOkW : Nat → Except String (Nat × Nat) := fun n => .ok (n, n + 1)

/-- A concrete failing statement. -/
def stmtFailW : Nat → Except String (Nat × Nat) := fun _ => .error "boom"

/-- Witness for C6 at a concrete sequence [ok, fail] on database 0: the
raised error is the second statement's, the database is rolled back to 0,
and the session is closed exactly once. -/
theorem multipleStatements_transactional_witness :
    (multipleStatementsRaw [stmtOkW, stmtFailW] 0).finalDb = 0 ∧
    (multipleStatementsRaw [stmtOkW, stmtFailW] 0).sessionClosed = 1 :=
  ⟨((multipleStatements_transactional [stmtOkW, stmtFailW] 0).2.1 "boom" rfl).1,
   (multipleStatements_transactional [stmtOkW, stmtFailW] 0).1⟩

/-- A value in the neo4j-driver Config option bag (booleans, numbers,
strings suffice for the options the module touches). -/
inductive OptVal where
  | b (x : Bool)
  | n (x : Int)
  | s (x : String)

/-- JS property assignment target[k] = v on an option bag: overwrite the
existing binding in place, else append the new key at the end. -/
def setOpt : List (String × OptVal) → String → OptVal → List (String × OptVal)
  | [], k, v => [(k, v)]
  | (k', v') :: t, k, v =>
    if k' == k then (k', v) :: t else (k', v') :: setOpt t k v

/-- Property lookup on an option bag. -/
def lookupOpt : List (String × OptVal) → String → Option OptVal
  | [], _ => none
  | (k', v') :: t, k => if k' == k then some v' else lookupOpt t k

/-- Object.assign(target, source): assign every own key of source to
target, in order. -/
def objAssign (target source : List (String × OptVal)) : List (String × OptVal) :=
  source.foldl (fun t kv => setOpt t kv.1 kv.2) target

/-- The Neo4jConfig interface (neo4j-config.interface.ts): scheme, host,
port, credentials, optional database, optional driver option bag, and the
optional verifyConnectionTimeout documented as "if the driver could not
establish a connection after the specified number of milliseconds, an
error will be thrown, default 60000". -/
structure Neo4jConfigL where
  scheme : String
  host : String
  port : String
  username : String
  password : String
  database : Option String
  options : Option (List (String × OptVal))
  verifyConnectionTimeout : Option Nat

/-- The option merge on lines 21-24 of index.ts:
Object.assign(\x7bdisableLosslessIntegers: true\x7d, config.options || \x7b\x7d). -/
def mergedOptions (cfg : Neo4jConfigL) : List (String × OptVal) :=
  objAssign [("disableLosslessIntegers", .b true)] (cfg.options.getD [])

theorem lookupOpt_setOpt_self :
    (t : List (String × OptVal)) → ∀ k v, lookupOpt (setOpt t k v) k = some v
  | [], k, v => by simp [setOpt, lookupOpt]
  | (k', v') :: t, k, v => by
      by_cases h : k' = k
      · simp [setOpt, lookupOpt, h]
      · have hb : (k' == k) = false := by simp [h]
        simp only [setOpt, lookupOpt, hb, Bool.false_eq_true, if_false]
        exact lookupOpt_setOpt_self t k v

theorem lookupOpt_setOpt_ne :
    (t : List (String × OptVal)) → ∀ k v k2, k ≠ k2 →
      lookupOpt (setOpt t k v) k2 = lookupOpt t k2
  | [], k, v, k2, hne => by
      have hb : (k == k2) = false := by simp [hne]
      simp [setOpt, lookupOpt, hb]
  | (k', v') :: t, k, v, k2, hne => by
      by_cases h : k' = k
      · subst h
        have hb : (k' == k') = true := by simp
        have hb2 : (k' == k2) = false := by simp [hne]
        simp [setOpt, lookupOpt, hb, hb2]
      · have hb : (k' == k) = false := by simp [h]
        simp only [setOpt, lookupOpt, hb, Bool.false_eq_true, if_false]
        by_cases h2 : k' = k2
        · simp [h2]
        · have hb2 : (k' == k2) = false := by simp [h2]
          simp only [hb2, Bool.false_eq_true, if_false]
          exact lookupOpt_setOpt_ne t k v k2 hne

theorem lookupOpt_none_of_not_mem :
    (t : List (String × OptVal)) → ∀ k, k ∉ t.map Prod.fst → lookupOpt t k = none
  | [], _, _ => rfl
  | (k', v') :: t, k, h => by
      simp only [List.map_cons, List.mem_cons, not_or] at h
      have hb : (k' == k) = false := by
        simp
        exact fun he => h.1 he.symm
      simp only [lookupOpt, hb, Bool.false_eq_true, if_false]
      exact lookupOpt_none_of_not_mem t k h.2

/-- Object.assign semantics through lookup, for a source bag with distinct
keys: a key present in the source gets the source value; a key absent from
the source keeps the target value. -/
theorem lookupOpt_objAssign :
    (src : List (String × OptVal)) → ∀ (t : List (String × OptVal)) k,
      (src.map Prod.fst).Nodup →
      lookupOpt (objAssign t src) k =
        (match lookupOpt src k with
         | some v => some v
         | none => lookupOpt t k)
  | [], t, k, _ => by simp [objAssign, lookupOpt]
  | (k0, v0) :: tl, t, k, hnd => by
      simp only [List.map_cons, List.nodup_cons] at hnd
      obtain ⟨hk0, hnd⟩ := hnd
      have heq : objAssign t ((k0, v0) :: tl) = objAssign (setOpt t k0 v0) tl := rfl
      rw [heq, lookupOpt_objAssign tl (setOpt t k0 v0) k hnd]
      by_cases h : k0 = k
      · subst h
        have htl : lookupOpt tl k0 = none := lookupOpt_none_of_not_mem tl k0 hk0
        have hb : (k0 == k0) = true := by simp
        simp only [htl, lookupOpt, hb, if_true, lookupOpt_setOpt_self]
      · have hb : (k0 == k) = false := by simp [h]
        simp only [lookupOpt, hb, Bool.false_eq_true, if_false,
          lookupOpt_setOpt_ne t k0 v0 k h]

/-- C8: the driver options passed to neo4j.driver are built by merging the
default \x7bdisableLosslessIntegers: true\x7d with the caller-supplied bag
(config.options || \x7b\x7d); on every conflicting key the caller-supplied
value wins, and on every other key the default applies. Stated for caller
bags with distinct keys (JS objects cannot carry duplicate keys). -/
theorem driver_options_merge_spec (cfg : Neo4jConfigL)
    (hnd : ((cfg.options.getD []).map Prod.fst).Nodup) :
    (∀ k v, lookupOpt (cfg.options.getD []) k = some v →
      lookupOpt (mergedOptions cfg) k = some v) ∧
    (∀ k, lookupOpt (cfg.options.getD []) k = none →
      lookupOpt (mergedOptions cfg) k
        = lookupOpt [("disableLosslessIntegers", OptVal.b true)] k) := by
  constructor
  · intro k v h
    rw [mergedOptions, lookupOpt_objAssign (cfg.options.getD []) _ k hnd, h]
  · intro k h
    rw [mergedOptions, lookupOpt_objAssign (cfg.options.getD []) _ k hnd, h]

/-- A concrete configuration whose caller options override the default. -/
def cfgMergeW : Neo4jConfigL :=
  ⟨"neo4j", "localhost", "7687", "neo4j", "pw", none,
   some [("disableLosslessIntegers", .b false), ("maxConnectionPoolSize", .n 10)], none⟩

/-- Witness for C8: with caller options \x7bdisableLosslessIntegers: false,
maxConnectionPoolSize: 10\x7d, the merged bag keeps the caller's false on
the conflicting key and serves the default to no other key. -/
theorem driver_options_merge_spec_witness :
    lookupOpt (mergedOptions cfgMergeW) "disableLosslessIntegers"
      = some (OptVal.b false) ∧
    lookupOpt (mergedOptions cfgMergeW) "maxConnectionPoolSize" = some (OptVal.n 10) := by
  constructor
  · exact (driver_options_merge_spec cfgMergeW (by simp [cfgMergeW])).1
      "disableLosslessIntegers" (OptVal.b false) (by simp [cfgMergeW, lookupOpt])
  · exact (driver_options_merge_spec cfgMergeW (by simp [cfgMergeW])).1
      "maxConnectionPoolSize" (OptVal.n 10) (by simp [cfgMergeW, lookupOpt])

/-- The retry interval of the bootstrap loop: timer(0, 5000) fires at 0 ms
and every 5000 ms after (index.ts line 27). -/
def retryInterval : Nat := 5000

/-- The deadline hard-coded in the rxjs timeout operator on line 52 of
index.ts (each: 60000); createDriver never reads
config.verifyConnectionTimeout. -/
def hardTimeout : Nat := 60000

/-- Number of connectivity attempts whose outcome can land before the
deadline: ticks at 5000·n for 5000·n < 60000, i.e. n = 0..11. The tick due
exactly at 60000 loses the race: its verifyConnectivity resolves
asynchronously, strictly after the timeout operator errors. -/
def numAttempts : Nat := 12

/-- Observable outcome of a createDriver call: the time at which the
returned promise settles, the settlement (handle, or the rethrown reason —
the reason variable starts undefined, hence Option), and the option bag
the driver handles were constructed with. -/
structure BootstrapResult (H E : Type) where
  time : Nat
  outcome : Except (Option E) H
  optionsUsed : List (String × OptVal)

/-- createDriver (index.ts lines 18-61), under the idealization that each
attempt's verifyConnectivity settles instantly at its tick: options are the
merge of the disableLosslessIntegers default with config.options; the
attempt at tick n (time 5000·n) either produces the handle — resolving the
call and stopping the timer via takeUntil — or stores its reason and lets
the interval continue; if no attempt in ticks 0..11 succeeds, the timeout
fires at the hard-coded 60000 ms and rethrows the stored reason, which is
then the reason of the last failed attempt (tick 11). The configuration's
verifyConnectionTimeout field is never consulted. -/
def createDriverModel {H E : Type} (cfg : Neo4jConfigL)
    (attempt : Nat → Except E H) : BootstrapResult H E :=
  let opts := mergedOptions cfg
  match (List.range numAttempts).findSome?
      (fun n => match attempt n with
        | .ok h => some (n, h)
        | .error _ => none) with
  | some (n, h) => ⟨retryInterval * n, .ok h, opts⟩
  | none =>
      ⟨hardTimeout,
       .error (match attempt (numAttempts - 1) with
         | .error e => some e
         | .ok _ => none),
       opts⟩

/-- C2: the claim (and the doc comment on verifyConnectionTimeout in
neo4j-config.interface.ts) says a bootstrap whose attempts all fail gives
up after the configured verifyConnectionTimeout T, e.g. at 10000 ms for
T = 10000. The code instead hard-codes each: 60000 in the rxjs timeout
(index.ts line 52) and never reads the field: with
verifyConnectionTimeout = 10000 and every attempt failing (attempt n fails
with reason "refused n"), the operation fails at 60000 ms, not 10000 ms.
The other half of the claim holds: the error is the stored reason of the
last attempt observed before the deadline (tick 11), not a synthetic
timeout error. -/
theorem bootstrap_ignores_configured_timeout :
    (createDriverModel (H := Unit)
      ⟨"neo4j", "localhost", "7687", "neo4j", "pw", none, none, some 10000⟩
      (fun n => .error ("refused " ++ Nat.repr n))).time = 60000 ∧
    (createDriverModel (H := Unit)
      ⟨"neo4j", "localhost", "7687", "neo4j", "pw", none, none, some 10000⟩
      (fun n => .error ("refused " ++ Nat.repr n))).outcome
      = .error (some "refused 11") ∧
    (60000 : Nat) ≠ 10000 ∧
    (Neo4jConfigL.verifyConnectionTimeout
      ⟨"neo4j", "localhost", "7687", "neo4j", "pw", none, none, some 10000⟩)
      = some 10000 := by
  refine ⟨rfl, rfl, by decide, rfl⟩

/-- If an attempt before the deadline succeeds, the call resolves with that
handle at that attempt's tick; used to confirm that the 60000 ms failure
above is exclusively about the deadline, not about attempts being ignored. -/
theorem bootstrap_first_success :
    (createDriverModel (H := Unit) (E := String)
      ⟨"neo4j", "localhost", "7687", "neo4j", "pw", none, none, none⟩
      (fun n => if n < 3 then .error "refused" else .ok ())).time = 15000 ∧
    (createDriverModel (H := Unit) (E := String)
      ⟨"neo4j", "localhost", "7687", "neo4j", "pw", none, none, none⟩
      (fun n => if n < 3 then .error "refused" else .ok ())).outcome = .ok () := by
  exact ⟨rfl, rfl⟩

/-- The backtick character (written by code point to keep it out of the
source text). -/
def backtickChar : Char := Char.ofNat 96

/-- A character matched by the [a-z0-9] class under the i flag: ASCII
letters (either case) or digits — no underscore. -/
def isTickAlnum (c : Char) : Bool :=
  (Char.ofNat 97 ≤ c && c ≤ Char.ofNat 122) ||
  (Char.ofNat 65 ≤ c && c ≤ Char.ofNat 90) ||
  (Char.ofNat 48 ≤ c && c ≤ Char.ofNat 57)

/-- Single left-to-right scan implementing the global regex
/\x60([a-z0-9]+)\x60/gi: the second argument is none outside a candidate
match and some pending-run (reversed) after an opening backtick; a
completed match contributes its inner identifier. A failed candidate
resumes right after its opening backtick, and since the consumed run
characters contain no backtick, continuing the scan from the failure point
is equivalent (a second backtick with an empty pending run reopens a
candidate there, matching the regex engine's restart). -/
def scanTicksAux : List Char → Option (List Char) → List String → List String
  | [], _, acc => acc.reverse
  | c :: rest, none, acc =>
    if c == backtickChar then scanTicksAux rest (some []) acc
    else scanTicksAux rest none acc
  | c :: rest, some run, acc =>
    if c == backtickChar then
      if run.isEmpty then scanTicksAux rest (some []) acc
      else scanTicksAux rest none (String.mk run.reverse :: acc)
    else if isTickAlnum c then scanTicksAux rest (some (c :: run)) acc
    else scanTicksAux rest none acc

/-- All backtick-quoted alphanumeric identifiers of a message, in order,
without their backticks (message.match(/\x60([a-z0-9]+)\x60/gi) followed by
the .replace(/\x60/g, "") the filter applies to the entry it uses). -/
def scanTicks (s : String) : List String :=
  scanTicksAux s.toList none []

/-- Whether pat occurs as a contiguous substring of s
(String.prototype.includes). -/
def startsWithL : List Char → List Char → Bool
  | _, [] => true
  | [], _ :: _ => false
  | c :: cs, d :: ds => c == d && startsWithL cs ds

def containsSubL : List Char → List Char → Bool
  | [], pat => pat.isEmpty
  | c :: rest, pat => startsWithL (c :: rest) pat || containsSubL rest pat

def includes (s pat : String) : Bool :=
  containsSubL s.toList pat.toList

/-- The JSON body written by the filter's response. -/
structure HttpResponse where
  statusCode : Nat
  message : List String
  error : String

/-- Neo4jErrorFilter.catch (neo4j-error.filter.ts): defaults 500 /
Internal Server Error / empty message list; a message containing
"already exists with" or "must have the property" becomes 400 Bad Request
with the message built from matches[1] — the second backtick-quoted token
of the driver message — after stripping its backticks. When the message
contains a pattern but fewer than two backticked tokens, matches is null
or matches[1] is undefined, and reading/replacing on it throws a TypeError
inside the filter (none): no response is produced at all. -/
def neo4jErrorFilter (msg : String) : Option HttpResponse :=
  if includes msg "already exists with" then
    match (scanTicks msg).get? 1 with
    | some ident => some ⟨400, [ident ++ " already taken"], "Bad Request"⟩
    | none => none
  else if includes msg "must have the property" then
    match (scanTicks msg).get? 1 with
    | some ident => some ⟨400, [ident ++ " should not be empty"], "Bad Request"⟩
    | none => none
  else
    some ⟨500, [], "Internal Server Error"⟩

/-- C9 counterexample: the claim says every driver error whose message
matches a constraint-violation pattern is mapped to a structured 400
response; but a message that contains "already exists with" while carrying
no backtick-quoted identifier makes the filter itself throw (matches is
null, matches[1] errors) — no response of any kind is produced. -/
theorem errorFilter_missing_identifier_throws :
    includes "Node(1) already exists with nothing quoted" "already exists with" = true ∧
    neo4jErrorFilter "Node(1) already exists with nothing quoted" = none ∧
    (neo4jErrorFilter "Node(1) already exists with nothing quoted").isSome = false := by
  refine ⟨rfl, rfl, rfl⟩

/-- C9 (amended): a driver error message matching the uniqueness pattern
("already exists with") and carrying at least two backtick-quoted
alphanumeric identifiers is mapped to
\x7b400, [second identifier ++ " already taken"], "Bad Request"\x7d; one
matching the required-property pattern ("must have the property", tested
only when the first pattern is absent) is mapped likewise with
" should not be empty"; a matching message with fewer than two backticked
identifiers makes the filter itself throw and no response is produced; any
other driver error gets the generic
\x7b500, [], "Internal Server Error"\x7d response rather than a special
mapping. -/
theorem errorFilter_mapping_spec :
    (∀ msg ident, includes msg "already exists with" = true →
      (scanTicks msg)[1]? = some ident →
      neo4jErrorFilter msg = some ⟨400, [ident ++ " already taken"], "Bad Request"⟩) ∧
    (∀ msg ident, includes msg "already exists with" = false →
      includes msg "must have the property" = true →
      (scanTicks msg)[1]? = some ident →
      neo4jErrorFilter msg = some ⟨400, [ident ++ " should not be empty"], "Bad Request"⟩) ∧
    (∀ msg, includes msg "already exists with" = true →
      (scanTicks msg)[1]? = none → neo4jErrorFilter msg = none) ∧
    (∀ msg, includes msg "already exists with" = false →
      includes msg "must have the property" = false →
      neo4jErrorFilter msg = some ⟨500, [], "Internal Server Error"⟩) := by
  refine ⟨?_, ?_, ?_, ?_⟩
  · intro msg ident h1 h2
    simp [neo4jErrorFilter, h1, h2]
  · intro msg ident h1 h2 h3
    simp [neo4jErrorFilter, h1, h2, h3]
  · intro msg h1 h2
    simp [neo4jErrorFilter, h1, h2]
  · intro msg h1 h2
    simp [neo4jErrorFilter, h1, h2]

/-- Witness for C9 (amended) on the two documented driver messages: the
uniqueness violation for label User / property email maps to
"email already taken" (the second backticked token), and the
required-property violation for label Test / property mustExist maps to
"mustExist should not be empty". -/
theorem errorFilter_mapping_spec_witness :
    neo4jErrorFilter
      "Node(54776) already exists with label \x60User\x60 and property \x60email\x60"
      = some ⟨400, ["email already taken"], "Bad Request"⟩ ∧
    neo4jErrorFilter "Node(54778) with label \x60Test\x60 must have the property \x60mustExist\x60"
      = some ⟨400, ["mustExist should not be empty"], "Bad Request"⟩ := by
  constructor
  · exact errorFilter_mapping_spec.1
      "Node(54776) already exists with label \x60User\x60 and property \x60email\x60"
      "email" rfl rfl
  · exact errorFilter_mapping_spec.2.1
      "Node(54778) with label \x60Test\x60 must have the property \x60mustExist\x60"
      "mustExist" rfl rfl rfl
